import Mathlib

/-!
Verification of the pagesnap capture pipeline: a shallow embedding of the
selector splitter, selector normalizer, relevance matcher, CSS collection
engine, cross-origin fetch relay, URL rewriter and snapshot assembler,
together with theorems settling the specification claims.

Host capabilities (DOM queries, URL resolution, the network, the relay
transport) are modelled as explicit parameters; everything that the source
computes itself is translated directly.
-/

namespace PageSnap

/-! ## Basic character and list helpers -/

/-- Whitespace test used to model JavaScript `\s` and `String.prototype.trim`. -/
def isWS (c : Char) : Bool := c.isWhitespace

/-- The single-quote character (written by code to avoid a literal apostrophe). -/
def squote : Char := Char.ofNat 39

/-- The double-quote character. -/
def dquote : Char := '"'

/-- Trim whitespace from both ends of a character list (JS `trim`). -/
def strim (l : List Char) : List Char :=
  List.rdropWhile isWS (List.dropWhile isWS l)

/-- Case-insensitive prefix test, character by character, against a lowercase
pattern; models a JS regex literal alternative under the `i` flag. -/
def prefixCI : List Char → List Char → Bool
  | [], _ => true
  | _ :: _, [] => false
  | p :: ps, c :: cs => (c.toLower = p) && prefixCI ps cs

/-! ## Selector Normalizer (`normalizeSelector`, part_002 lines 180-189)

The source applies three global empty-string replacements in order and trims:
  1. `/::?before|::?after/gi`
  2. `/::[\\w-]+/g` — note the doubled backslash in the source literal: in
     a JavaScript regex literal `\\` is an escaped backslash, so the class
     `[\\w-]` denotes exactly the three characters backslash, `w` and `-`,
     not the word-character class
  3. `/:(hover|active|focus|focus-visible|focus-within|visited|link|checked|disabled|enabled|target)/gi`
Each is modelled as a matcher giving the length consumed at the scan head. -/

/-- Matcher for `::?before|::?after` (alternatives tried in JS order,
greedy optional second colon first). -/
def matchBeforeAfter (l : List Char) : Option Nat :=
  if prefixCI "::before".toList l then some 8
  else if prefixCI ":before".toList l then some 7
  else if prefixCI "::after".toList l then some 7
  else if prefixCI ":after".toList l then some 6
  else none

/-- The character class of the source literal `[\\w-]` (an escaped
backslash, the letter `w`, and the dash): exactly these three characters. -/
def isBsWDash (c : Char) : Bool := c = '\\' || c = 'w' || c = '-'

/-- Matcher for the second replacement: `::` then a greedy run (at least
one character) of the three-character class. -/
def matchPseudoElem : List Char → Option Nat
  | c1 :: c2 :: rest =>
    if c1 = ':' && c2 = ':' then
      let run := rest.takeWhile isBsWDash
      if run.isEmpty then none else some (2 + run.length)
    else none
  | _ => none

/-- The pseudo-class alternatives of the third replacement, in JS
alternation order (so `focus` shadows `focus-visible`/`focus-within`). -/
def pseudoClassAlts : List (List Char) :=
  [":hover".toList, ":active".toList, ":focus".toList, ":focus-visible".toList,
   ":focus-within".toList, ":visited".toList, ":link".toList, ":checked".toList,
   ":disabled".toList, ":enabled".toList, ":target".toList]

/-- First-alternative-wins matcher for the pseudo-class replacement. -/
def matchPseudoClass (l : List Char) : Option Nat :=
  (pseudoClassAlts.find? (fun p => prefixCI p l)).map List.length

/-- Global replace-with-empty scan: at each position, if the matcher fires,
drop the matched span and continue after it (JS `replace` with `g`),
otherwise keep the character. -/
def scanRemove (m : List Char → Option Nat) : List Char → List Char
  | [] => []
  | c :: t =>
    match m (c :: t) with
    | some n =>
      if _h : 0 < n then scanRemove m (List.drop n (c :: t))
      else c :: scanRemove m t
    | none => c :: scanRemove m t
termination_by l => l.length
decreasing_by
  all_goals simp only [List.length_drop, List.length_cons]
  all_goals omega

/-- `normalizeSelector` from the source: three ordered global removals,
then a trim. -/
def normalizeSelector (s : String) : String :=
  String.mk (strim (scanRemove matchPseudoClass
    (scanRemove matchPseudoElem (scanRemove matchBeforeAfter s.toList))))

/-! ## Selector List Splitter (`splitSelectors`, part_002 lines 134-178)

One left-to-right pass over the characters, tracking an open quote (with the
preceding original character for the backslash-escape test), a bracket/paren
nesting depth (`Math.max(0, depth - 1)` becomes truncated `Nat` subtraction),
and the current clause; a clause is flushed, trimmed, and kept only when
non-empty, at each separating comma and at the end of the input.  The clause
accumulator is kept reversed and reversed at each flush. -/

/-- The loop of `splitSelectors`: `quote` is the open quote character (if
any), `depth` the bracket/paren nesting, `prev` the previous character of the
original string, `cur` the reversed current clause. -/
def splitAux (quote : Option Char) (depth : Nat) (prev : Option Char)
    (cur : List Char) : List Char → List (List Char)
  | [] =>
    let t := strim cur.reverse
    if t.isEmpty then [] else [t]
  | c :: rest =>
    match quote with
    | some q =>
      if c = q && !(prev = some '\\') then
        splitAux none depth (some c) (c :: cur) rest
      else
        splitAux (some q) depth (some c) (c :: cur) rest
    | none =>
      if c = dquote || c = squote then
        splitAux (some c) depth (some c) (c :: cur) rest
      else if c = '(' || c = '[' then
        splitAux none (depth + 1) (some c) (c :: cur) rest
      else if c = ')' || c = ']' then
        splitAux none (depth - 1) (some c) (c :: cur) rest
      else if c = ',' && depth = 0 then
        let t := strim cur.reverse
        (if t.isEmpty then [] else [t]) ++ splitAux none 0 (some c) [] rest
      else
        splitAux none depth (some c) (c :: cur) rest

/-- `splitSelectors` from the source. -/
def splitSelectors (s : String) : List String :=
  (splitAux none 0 none [] s.toList).map String.mk

/-- Modelled from the spec's words, for comparison with `splitSelectors`:
first cut the input into raw segments at every comma that is outside a
quoted string and outside bracket/paren nesting (the same quoting and
nesting discipline, including the backslash-escape rule), then trim each
segment and drop the empty ones. -/
def rawSegments (quote : Option Char) (depth : Nat) (prev : Option Char)
    (cur : List Char) : List Char → List (List Char)
  | [] => [cur.reverse]
  | c :: rest =>
    match quote with
    | some q =>
      if c = q && !(prev = some '\\') then
        rawSegments none depth (some c) (c :: cur) rest
      else
        rawSegments (some q) depth (some c) (c :: cur) rest
    | none =>
      if c = dquote || c = squote then
        rawSegments (some c) depth (some c) (c :: cur) rest
      else if c = '(' || c = '[' then
        rawSegments none (depth + 1) (some c) (c :: cur) rest
      else if c = ')' || c = ']' then
        rawSegments none (depth - 1) (some c) (c :: cur) rest
      else if c = ',' && depth = 0 then
        cur.reverse :: rawSegments none 0 (some c) [] rest
      else
        rawSegments none depth (some c) (c :: cur) rest

/-- The spec-side splitter: raw segments, trimmed, empties dropped. -/
def splitSelectorsFromSpec (s : String) : List String :=
  ((((rawSegments none 0 none [] s.toList).map strim).filter
    (fun l => !l.isEmpty)).map String.mk)

/-! ## Relevance Matcher (`selectorMatches`, part_002 lines 191-205)

`document.querySelector` is a host capability; it is modelled as a function
`query : String → Option Bool`, where `none` stands for a thrown syntax
error and `some b` for a successful query that found (`true`) or did not
find (`false`) a node. -/

/-- `selectorMatches`: direct query; on a syntax error, retry once with the
normalized selector unless normalization was useless. -/
def selectorMatches (query : String → Option Bool) (selector : String) : Bool :=
  match query selector with
  | some b => b
  | none =>
    let normalized := normalizeSelector selector
    if normalized = "" || normalized = selector then false
    else
      match query normalized with
      | some b => b
      | none => false

/-! ## Stylesheet Traversal & Collection Engine
(`collectUsedCss`, part_002 lines 261-366)

Style sources are identified by `Fin n`; the rule tree of each source, its
origin address, its rule-list accessibility, and the outcome of its fallback
fetch (a `fetchStylesheetText` result together with the rules the host
parser produces from the fetched text) are given by an environment.  The
mutable captures (`usedRules`, `fontFaces`, `keyframes`, `visitedSheets`,
`warnings`) are threaded as explicit state.  Sheet-level recursion through
`@import` is bounded by explicit fuel; a `ranOut` flag records the (never
taken, as proved below) fuel-exhaustion path. -/

/-- The `{text, error}` record returned by `fetchStylesheetText`. -/
structure FetchResult where
  text : Option String
  error : Option String
  deriving Repr, DecidableEq

/-- JS template-literal rendering of a possibly-null string. -/
def jsToStr : Option String → String
  | some s => s
  | none => "null"

/-- JS falsiness of a nullable string (`null`, `undefined` or `""`). -/
def jsFalsyStr (s : Option String) : Bool := s = none || s = some ""

/-- The rule variants dispatched by `collectRules` (`CSSStyleRule`,
`CSSMediaRule`, `CSSSupportsRule`, `CSSKeyframesRule`, `CSSFontFaceRule`,
`CSSImportRule`, and the generic `'cssRules' in rule` grouping case). -/
inductive CSSRule (n : Nat) where
  | styleRule (selectorText cssText : String)
  | mediaRule (conditionText : String) (children : List (CSSRule n))
  | supportsRule (conditionText : String) (children : List (CSSRule n))
  | keyframesRule (cssText : String)
  | fontFaceRule (cssText : String)
  | importRule (target : Option (Fin n))
  | groupingRule (cssText : String) (children : List (CSSRule n))
  deriving Repr

/-- A style source: origin address, rule-list accessibility, rule tree,
and the modelled outcome of `fetchStylesheetText` plus the host-parsed
rules of the fetched (URL-rewritten) text. -/
structure Sheet (n : Nat) where
  href : Option String
  accessible : Bool
  rules : List (CSSRule n)
  fetchResult : FetchResult
  fetchedRules : List (CSSRule n)

/-- Host environment of one capture: the live-tree query primitive, the
`CSS.supports` primitive, and the style sources. -/
structure CollectEnv (n : Nat) where
  query : String → Option Bool
  supports : String → Bool
  sheets : Fin n → Sheet n

/-- The engine's threaded state. -/
structure CollectSt (n : Nat) where
  usedRules : List String
  fontFaces : List String
  keyframes : List String
  visited : List (Fin n)
  warnings : List String
  ranOut : Bool
  deriving Repr, DecidableEq

/-- Initial state of one capture. -/
def initSt (n : Nat) : CollectSt n := ⟨[], [], [], [], [], false⟩

/-- JS `Set.add`: append if not already present. -/
def addSet (x : String) (l : List String) : List String :=
  if x ∈ l then l else l ++ [x]

mutual

/-- One iteration of the `for (const rule of Array.from(rules))` dispatch. -/
def collectRule {n : Nat} (env : CollectEnv n) :
    Nat → CSSRule n → CollectSt n → List String × CollectSt n
  | _, .styleRule selectorText cssText, st =>
    (if (splitSelectors selectorText).any (selectorMatches env.query) then
      [cssText] else [], st)
  | fuel, .mediaRule cond children, st =>
    let p := collectRules env fuel children st
    ((if p.1.isEmpty then []
      else ["@media " ++ cond ++ "\x7b" ++ String.join p.1 ++ "\x7d"]), p.2)
  | fuel, .supportsRule cond children, st =>
    if !env.supports cond then ([], st)
    else
      let p := collectRules env fuel children st
      ((if p.1.isEmpty then []
        else ["@supports " ++ cond ++ "\x7b" ++ String.join p.1 ++ "\x7d"]), p.2)
  | _, .keyframesRule cssText, st =>
    ([], { st with keyframes := addSet cssText st.keyframes })
  | _, .fontFaceRule cssText, st =>
    ([], { st with fontFaces := addSet cssText st.fontFaces })
  | fuel, .importRule target, st =>
    match target with
    | none => ([], st)
    | some i =>
      if i ∈ st.visited then ([], st)
      else ([], collectFromStylesheet env fuel i st)
  | fuel, .groupingRule cssText children, st =>
    let p := collectRules env fuel children st
    ((if p.1.isEmpty then [] else [cssText]), p.2)
termination_by fuel r _ => (fuel, sizeOf r)

/-- `collectRules`: fold the dispatch over a rule list, concatenating the
collected texts in source order. -/
def collectRules {n : Nat} (env : CollectEnv n) :
    Nat → List (CSSRule n) → CollectSt n → List String × CollectSt n
  | _, [], st => ([], st)
  | fuel, r :: rest, st =>
    let p := collectRule env fuel r st
    let q := collectRules env fuel rest p.2
    (p.1 ++ q.1, q.2)
termination_by fuel rs _ => (fuel, sizeOf rs)

/-- `collectFromStylesheet`: skip if visited, else mark visited, then either
read the rule list (accessible path) or fall back to warn + fetch + parse
(blocked path). -/
def collectFromStylesheet {n : Nat} (env : CollectEnv n) :
    Nat → Fin n → CollectSt n → CollectSt n
  | fuel, i, st =>
    if i ∈ st.visited then st
    else
      match fuel with
      | 0 => { st with visited := st.visited ++ [i], ranOut := true }
      | fuel' + 1 =>
        let st1 := { st with visited := st.visited ++ [i] }
        let sheet := env.sheets i
        if sheet.accessible then
          let p := collectRules env fuel' sheet.rules st1
          { p.2 with usedRules := p.2.usedRules ++ p.1 }
        else
          match sheet.href with
          | none => st1
          | some h =>
            let st2 := { st1 with warnings :=
              st1.warnings ++ ["cssRules blocked for stylesheet: " ++ h] }
            if jsFalsyStr sheet.fetchResult.text then
              { st2 with warnings := st2.warnings ++
                ["Failed to fetch stylesheet: " ++ h ++ " (" ++
                  jsToStr sheet.fetchResult.error ++ ")"] }
            else
              let p := collectRules env fuel' sheet.fetchedRules st2
              { p.2 with usedRules := p.2.usedRules ++ p.1 }
termination_by fuel _ _ => (fuel, 0)

end

/-- The top-level loop over `document.styleSheets`. -/
def runSheets {n : Nat} (env : CollectEnv n) (fuel : Nat)
    (order : List (Fin n)) (st : CollectSt n) : CollectSt n :=
  order.foldl (fun s i => collectFromStylesheet env fuel i s) st

/-- `collectUsedCss`: traverse every active sheet (with fuel `n + 1`, shown
sufficient below) and join font-faces, keyframes, and matched rules. -/
def collectUsedCss {n : Nat} (env : CollectEnv n) (order : List (Fin n)) :
    CollectSt n × String :=
  let st := runSheets env (n + 1) order (initSt n)
  (st, String.intercalate "\n" (st.fontFaces ++ st.keyframes ++ st.usedRules))

/-! ## Cross-Origin Fetch Relay
(`fetchStylesheetText`, part_002 lines 207-259, and the background
`FETCH_CSS` listener, part_000)

The network is modelled as a `FetchOutcome` (a response with status and
body, or a thrown error whose message may be absent for non-`Error`
throws).  The relay transport is modelled as a `RelayBehavior`: the
privileged side may never respond, respond at some time with a
(possibly malformed) value, or the send itself may throw synchronously. -/

/-- Outcome of one `fetch` call. -/
inductive FetchOutcome where
  | resp (status : Nat) (text : String)
  | err (msg : Option String)
  deriving Repr, DecidableEq

/-- `Response.ok`: status in the inclusive range 200-299. -/
def respOk (status : Nat) : Bool := 200 ≤ status && status ≤ 299

/-- The direct (unprivileged) path of `fetchStylesheetText`
(part_002 lines 248-258). -/
def directFetchClassify : FetchOutcome → FetchResult
  | .resp s t =>
    if respOk s then ⟨some t, none⟩ else ⟨none, some ("HTTP " ++ toString s)⟩
  | .err m => ⟨none, some (m.getD "Unknown fetch error")⟩

/-- The structured `{ok, text?, error?}` value sent by the privileged side. -/
structure BgResponse where
  ok : Bool
  text : Option String
  error : Option String
  deriving Repr, DecidableEq

/-- The background `FETCH_CSS` listener's classification (part_000
lines 12-25). -/
def bgFetchCssClassify : FetchOutcome → BgResponse
  | .resp s t =>
    if respOk s then ⟨true, some t, none⟩
    else ⟨false, none, some ("HTTP " ++ toString s)⟩
  | .err m => ⟨false, none, some (m.getD "Unknown fetch error")⟩

/-- A retrieval request: address plus credentials mode. -/
structure FetchRequest where
  url : String
  credentials : String
  deriving Repr, DecidableEq

/-- The request issued by the direct path: `fetch(href, {credentials:
'include'})`. -/
def directFetchRequest (href : String) : FetchRequest := ⟨href, "include"⟩

/-- The request issued by the privileged listener: `fetch(url,
{credentials: 'include'})`. -/
def bgFetchRequest (u : String) : FetchRequest := ⟨u, "include"⟩

/-- Behaviour of the relay transport for one call. -/
inductive RelayBehavior where
  | noResponse
  | respondsAt (t : Nat) (r : Option BgResponse)
  | throwsSync (msg : Option String)
  deriving Repr, DecidableEq

/-- The fixed relay timeout (ms). -/
def relayTimeoutMs : Nat := 3000

/-- The value the relay promise settles to: the `settled` flag lets whichever
of the timeout, the response callback, or a synchronous throw comes first
win; a response arriving at or after the timeout is ignored.  A malformed
(non-object) response value is coerced to
`{ok: false, error: 'Background fetch failed'}`. -/
def relayPromise : RelayBehavior → BgResponse
  | .noResponse => ⟨false, none, some "Background fetch timeout"⟩
  | .respondsAt t r =>
    if t < relayTimeoutMs then
      match r with
      | some resp => resp
      | none => ⟨false, none, some "Background fetch failed"⟩
    else ⟨false, none, some "Background fetch timeout"⟩
  | .throwsSync m => ⟨false, none, some (m.getD "Background fetch error")⟩

/-- The time at which the relay promise settles. -/
def relaySettleTime : RelayBehavior → Nat
  | .noResponse => relayTimeoutMs
  | .respondsAt t _ => min t relayTimeoutMs
  | .throwsSync _ => 0

/-- JS `a || dflt` for a nullable string (`null`, `undefined` and `""` are
falsy). -/
def jsOrStr (e : Option String) (dflt : String) : String :=
  match e with
  | some s => if s = "" then dflt else s
  | none => dflt

/-- The relay path of `fetchStylesheetText` (lines 208-247): await the
promise, then `if (!response.ok || !response.text)` fail with
`response.error || 'Background fetch failed'`, else succeed with the text. -/
def relayFetchClassify (b : RelayBehavior) : FetchResult :=
  let response := relayPromise b
  if !response.ok || jsFalsyStr response.text then
    ⟨none, some (jsOrStr response.error "Background fetch failed")⟩
  else ⟨response.text, none⟩

/-- Configuration guard of the relay path: the engine prefers the relay and
a relay channel is available. -/
structure RelayCfg where
  useHostFetch : Bool
  relayAvailable : Bool
  deriving Repr, DecidableEq

/-- `fetchStylesheetText`: relay path when configured and available,
direct path otherwise. -/
def fetchStylesheetText (cfg : RelayCfg) (b : RelayBehavior)
    (o : FetchOutcome) : FetchResult :=
  if cfg.useHostFetch && cfg.relayAvailable then relayFetchClassify b
  else directFetchClassify o

/-! ## URL Rewriter (`rewriteCssUrls`, part_002 lines 96-120)

The regex literal on line 101 is written with doubled backslashes:
`/url\\(\\s*(?:['"]?)([^'")]+)(?:['"]?)\\s*\\)/gi`.  In a JavaScript
regex literal, `\\` matches one literal backslash character, so the
parenthesis after `url\\` opens a capture group (it is not an escaped
`(`), `\\s` is a literal backslash followed by a literal letter `s`, and
the final `\\)` closes that group.  The compiled pattern is therefore:
`url` (case-insensitive), a literal backslash, then group 1 consisting of
a literal backslash, a greedy run of `s`/`S` (the `i` flag), an optional
quote, group 2 — a non-empty greedy run of characters other than the two
quotes and `)` — an optional quote, a literal backslash, a greedy
`s`/`S` run and a final literal backslash.  The callback
`(match, url) => ...` receives group 1, not the inner reference.  The
match attempt is modelled in the backtracking order of the JavaScript
engine: a greedy quantifier offers the longest run first, an optional
quote offers presence first, and the first completing combination wins;
the global replace scans left to right and resumes after each match.
`new URL(ref, base).href` is the host address resolution, modelled as a
parameter `resolve` returning `none` when the constructor throws. -/

/-- The character class `[^'")]` (negated). -/
def isExcl (c : Char) : Bool := c = squote || c = dquote || c = ')'

/-- Complement of `isExcl`: the characters group 2 may contain (note this
class does include backslashes and the letter `s`). -/
def notExcl (c : Char) : Bool := !isExcl c

/-- Quote characters. -/
def isQuoteC (c : Char) : Bool := c = squote || c = dquote

/-- The letter `s` under the `i` flag. -/
def isSChar (c : Char) : Bool := c = 's' || c = 'S'

/-- Case-sensitive list prefix test (JS `String.prototype.startsWith`). -/
def startsWithL : List Char → List Char → Bool
  | [], _ => true
  | _ :: _, [] => false
  | a :: as, b :: bs => a = b && startsWithL as bs

/-- First success of `f` along `xs`: the backtracking engine commits to
the first alternative, in order, whose continuation completes. -/
def firstSome {α β : Type} : List α → (α → Option β) → Option β
  | [], _ => none
  | a :: r, f =>
    match f a with
    | some b => some b
    | none => firstSome r f

/-- `n, n-1, ..., 0`: the order in which a greedy `*` quantifier offers
run lengths. -/
def downList : Nat → List Nat
  | 0 => [0]
  | n + 1 => (n + 1) :: downList n

/-- `n, n-1, ..., 1`: the order in which the greedy `[^'")]+` offers run
lengths (at least one character). -/
def downPos : Nat → List Nat
  | 0 => []
  | n + 1 => (n + 1) :: downPos n

/-- The continuations an optional quote `['"]?` offers, in order: consume
a present quote first, then leave it unconsumed. -/
def tmQ : List Char → List (List Char)
  | [] => [[]]
  | q :: t => if isQuoteC q then [t, q :: t] else [q :: t]

/-- Group 1 of the compiled pattern, matched against `t` in the engine
order: a literal backslash, a greedy `s`/`S` run, an optional quote, a
non-empty greedy run of non-excluded characters, an optional quote, a
literal backslash, a greedy `s`/`S` run (after which only a backslash
can complete, so that run never backtracks) and a final literal
backslash.  Returns the remainder after the group. -/
def tmG1 (t : List Char) : Option (List Char) :=
  match t with
  | [] => none
  | b0 :: t1 =>
    if b0 = '\\' then
      firstSome (downList (t1.takeWhile isSChar).length) (fun k1 =>
        firstSome (tmQ (t1.drop k1)) (fun t3 =>
          firstSome (downPos (t3.takeWhile notExcl).length) (fun k =>
            firstSome (tmQ (t3.drop k)) (fun t5 =>
              match t5 with
              | [] => none
              | b1 :: t6 =>
                if b1 = '\\' then
                  match t6.dropWhile isSChar with
                  | [] => none
                  | b2 :: t8 => if b2 = '\\' then some t8 else none
                else none))))
    else none

/-- One attempt of the compiled pattern at the head of the input: `url`
case-insensitively, a literal backslash, then group 1.  On success,
returns the whole matched text, the group-1 text handed to the callback,
and the remainder of the input after the match. -/
def tryMatch : List Char → Option (List Char × List Char × List Char)
  | c1 :: c2 :: c3 :: c4 :: t =>
    if c1.toLower = 'u' && c2.toLower = 'r' && c3.toLower = 'l' &&
        c4 = '\\' then
      match tmG1 t with
      | some rest =>
        some (c1 :: c2 :: c3 :: c4 :: t.take (t.length - rest.length),
          t.take (t.length - rest.length), rest)
      | none => none
    else none
  | _ => none

/-- The quoted absolute reference `url("abs")` emitted by the callback. -/
def urlQuote (abs : List Char) : List Char :=
  'u' :: 'r' :: 'l' :: '(' :: dquote :: (abs ++ dquote :: [')'])

/-- The replacement callback (part_002 lines 102-118): keep the match for
falsy or `data:`/`blob:`/`about:`/`#` references, rewrite to a quoted
absolute reference when resolution succeeds, keep the match byte-for-byte
when the resolver throws. -/
def urlCallback (resolve : List Char → List Char → Option (List Char))
    (base mtch url : List Char) : List Char :=
  if url.isEmpty then mtch
  else if startsWithL "data:".toList url || startsWithL "blob:".toList url ||
      startsWithL "about:".toList url || startsWithL "#".toList url then
    mtch
  else
    match resolve url base with
    | some abs => urlQuote abs
    | none => mtch

/-- The global-replace scan.  Fuel is the input length; each step consumes
at least one character, so the fuel never runs out. -/
def rewriteGo (resolve : List Char → List Char → Option (List Char))
    (base : List Char) : Nat → List Char → List Char
  | 0, l => l
  | _ + 1, [] => []
  | fuel + 1, ch :: t =>
    match tryMatch (ch :: t) with
    | some (m, u, rest) =>
      urlCallback resolve base m u ++ rewriteGo resolve base fuel rest
    | none => ch :: rewriteGo resolve base fuel t

/-- `rewriteCssUrls`: falsy base short-circuits, otherwise the global
replace. -/
def rewriteCssUrls (resolve : List Char → List Char → Option (List Char))
    (css : String) (base : Option String) : String :=
  match base with
  | none => css
  | some b =>
    if b = "" then css
    else String.mk (rewriteGo resolve b.toList css.toList.length css.toList)

/-- A resolver for the counterexample, satisfying the spec proviso that
every address it produces resolves to itself: the group-1 text produced
by the first pass maps to an address that itself contains a matchable
`url` span with literal backslashes, the group-1 text found inside that
address on the second pass maps to a short address, and every other
address resolves to itself. -/
def resolveBS : List Char → List Char → Option (List Char) :=
  fun u _ =>
    if u = "\\x\\\\".toList then some "url\\\\y\\\\".toList
    else if u = "\\y\\\\".toList then some "z".toList
    else some u

/-- A concrete resolver for the witness of the amended theorem. -/
def resolveGoodC5 : List Char → List Char → Option (List Char) :=
  fun _ _ => some "http://x/a".toList


/-! ## Snapshot Assembler (`cloneActiveTab`, part_002 lines 44-430)

The live tree is a value; `cloneNode(true)` is therefore the identity on the
value.  `document.head` and `cloneRoot.querySelector('head')` are modelled
as the first `head`-tagged direct child of the document element (its
position in a well-formed document).  `querySelectorAll(...).remove()`
passes are modelled as recursive filters over descendants. -/

/-- Element/text tree. -/
inductive DomNode where
  | elem (tag : String) (attrs : List (String × String))
      (children : List DomNode)
  | textNode (s : String)
  deriving Repr

/-- A document: doctype plus the document element. -/
structure Doc where
  doctypeName : Option String
  rootTag : String
  rootAttrs : List (String × String)
  rootChildren : List DomNode

/-- Tag test. -/
def isTag (t : String) : DomNode → Bool
  | .elem tag _ _ => tag = t
  | .textNode _ => false

/-- Attribute-presence test. -/
def hasAttr (name : String) : DomNode → Bool
  | .elem _ attrs _ => attrs.any (fun p => p.1 = name)
  | .textNode _ => false

/-- Attribute-value test (`[name="val"]`). -/
def attrEq (name val : String) : DomNode → Bool
  | .elem _ attrs _ => attrs.any (fun p => p.1 = name && p.2 = val)
  | .textNode _ => false

/-- `plasmo-csui, css-to-tailwind, browser-mcp-container`. -/
def extUiTest (n : DomNode) : Bool :=
  isTag "plasmo-csui" n || isTag "css-to-tailwind" n ||
    isTag "browser-mcp-container" n

/-- `script, link[rel="modulepreload"], link[rel="preload"][as="script"]`. -/
def scriptsTest (n : DomNode) : Bool :=
  isTag "script" n || (isTag "link" n && attrEq "rel" "modulepreload" n) ||
    (isTag "link" n && attrEq "rel" "preload" n && attrEq "as" "script" n)

/-- `style, link[rel="stylesheet"], link[rel="preload"][as="style"]`. -/
def stylesTest (n : DomNode) : Bool :=
  isTag "style" n || (isTag "link" n && attrEq "rel" "stylesheet" n) ||
    (isTag "link" n && attrEq "rel" "preload" n && attrEq "as" "style" n)

mutual

/-- Remove every matching descendant of a node (the node itself is kept, as
with `root.querySelectorAll(...).remove()`). -/
def pruneNode (p : DomNode → Bool) : DomNode → DomNode
  | .elem t a cs => .elem t a (pruneKids p cs)
  | .textNode s => .textNode s

/-- Remove every matching node (and with it its subtree) from a forest and
recurse into the survivors. -/
def pruneKids (p : DomNode → Bool) : List DomNode → List DomNode
  | [] => []
  | c :: rest =>
    (if p c then [] else [pruneNode p c]) ++ pruneKids p rest

end

/-- The animation/transition/smooth-scroll override text injected by
`injectFreezeStyles` (part_002 lines 60-70). -/
def freezeCssText : String :=
  "\n* \x7b\n  animation: none !important;\n  transition: none !important;\n  scroll-behavior: auto !important;\n  caret-color: auto !important;\n\x7d\nhtml, body \x7b\n  scroll-behavior: auto !important;\n\x7d\n"

/-- The `data-pc-freeze` style element. -/
def freezeStyleNode : DomNode :=
  .elem "style" [("data-pc-freeze", "true")] [.textNode freezeCssText]

/-- The restrictive policy meta tag appended when `addCsp` is set. -/
def cspMetaNode : DomNode :=
  .elem "meta"
    [("http-equiv", "Content-Security-Policy"),
     ("content",
      "default-src \x27self\x27 data:; script-src \x27none\x27; object-src \x27none\x27; base-uri \x27none\x27;")]
    []

/-- Append a node to the children of the first `tag`-tagged element of a
forest (no-op when none exists, as with `document.head?.appendChild` and
the `headTarget &&` guards). -/
def appendToFirst (tag : String) (node : DomNode) :
    List DomNode → List DomNode
  | [] => []
  | .elem t a cs :: rest =>
    if t = tag then .elem t a (cs ++ [node]) :: rest
    else .elem t a cs :: appendToFirst tag node rest
  | n :: rest => n :: appendToFirst tag node rest

/-- Remove the last child of the first `tag`-tagged element of a forest:
the clean-up `style.remove()` undoing `injectFreezeStyles`. -/
def removeLastOfFirst (tag : String) : List DomNode → List DomNode
  | [] => []
  | .elem t a cs :: rest =>
    if t = tag then .elem t a cs.dropLast :: rest
    else .elem t a cs :: removeLastOfFirst tag rest
  | n :: rest => n :: removeLastOfFirst tag rest

/-- Attribute rendering for the serializer. -/
def serializeAttrs : List (String × String) → String
  | [] => ""
  | (k, v) :: rest => " " ++ k ++ "=\"" ++ v ++ "\"" ++ serializeAttrs rest

mutual

/-- `outerHTML`-style rendering of a node. -/
def serializeNode : DomNode → String
  | .elem t a cs =>
    "<" ++ t ++ serializeAttrs a ++ ">" ++ serializeKids cs ++ "</" ++ t ++ ">"
  | .textNode s => s

/-- Rendering of a forest. -/
def serializeKids : List DomNode → String
  | [] => ""
  | c :: rest => serializeNode c ++ serializeKids rest

end

/-- The capture options (`CloneOptions`). -/
structure CloneOptions where
  removeScripts : Bool
  removeOriginalStyles : Bool
  useHostFetch : Bool
  addCsp : Bool
  deriving Repr, DecidableEq

/-- The serialization function executed in the page (part_002 lines 52-421):
inject the freeze style into the live head, collect CSS if requested
(`extractedCssInput` stands for the engine's output), clone, prune, inject
the extracted style and optional policy tag, serialize with the doctype,
and undo the freeze injection on the live document.  Returns the document
text and the live document after clean-up. -/
def snapshotSerialize (opts : CloneOptions) (extractedCssInput : String)
    (doc : Doc) : String × Doc :=
  let liveKids := appendToFirst "head" freezeStyleNode doc.rootChildren
  let extractedCss := if opts.removeOriginalStyles then extractedCssInput else ""
  let k1 := pruneKids (isTag "base") liveKids
  let k2 := pruneKids extUiTest k1
  let k3 := pruneKids (hasAttr "data-extension-id") k2
  let k4 := if opts.removeScripts then pruneKids scriptsTest k3 else k3
  let k5 := if opts.removeOriginalStyles then pruneKids stylesTest k4 else k4
  let k6 :=
    if extractedCss ≠ "" then
      appendToFirst "head"
        (.elem "style" [("data-pc-extracted", "true")]
          [.textNode extractedCss]) k5
    else k5
  let k7 := if opts.addCsp then appendToFirst "head" cspMetaNode k6 else k6
  let doctype :=
    match doc.doctypeName with
    | some nm => "<!DOCTYPE " ++ nm ++ ">"
    | none => "<!DOCTYPE html>"
  let liveAfter := { doc with rootChildren := removeLastOfFirst "head" liveKids }
  (doctype ++ "\n" ++ serializeNode (.elem doc.rootTag doc.rootAttrs k7),
    liveAfter)

/-! ## Concrete instances used by counterexamples and witnesses -/

/-- An always-false media-query evaluation oracle: the instance of "the
host's media-query evaluation primitive" under which claim C1 is tested. -/
def mediaNotSat : String → Bool := fun _ => false

/-- One sheet holding a single media group with a matching child, used to
test the media dispatch. -/
def envC1 : CollectEnv 1 where
  query := fun _ => some true
  supports := fun _ => true
  sheets := fun _ =>
    { href := none
      accessible := true
      rules := [.mediaRule "(min-width: 9999px)"
        [.styleRule ".a" ".a\x7bcolor:red\x7d"]]
      fetchResult := ⟨none, none⟩
      fetchedRules := [] }

/-- One blocked sheet whose fallback fetch fails with `HTTP 404`. -/
def envC7 : CollectEnv 1 where
  query := fun _ => some true
  supports := fun _ => true
  sheets := fun _ =>
    { href := some "https://cdn.example/site.css"
      accessible := false
      rules := []
      fetchResult := ⟨none, some "HTTP 404"⟩
      fetchedRules := [] }

/-- One blocked sheet whose relay fetch succeeds structurally but carries
empty text: its `fetchResult` is literally what `fetchStylesheetText`
produces for the relay response `{ok: true, text: ""}`. -/
def envC9 : CollectEnv 1 where
  query := fun _ => some true
  supports := fun _ => true
  sheets := fun _ =>
    { href := some "https://cdn.example/empty.css"
      accessible := false
      rules := []
      fetchResult := fetchStylesheetText ⟨true, true⟩
        (.respondsAt 0 (some ⟨true, some "", none⟩)) (.err none)
      fetchedRules := [] }

/-- A well-formed document-element child list: it has a first `head`
element (no `head`-tagged element precedes it) and that head does not
carry the extension-marker attribute that the pruning passes remove. -/
def HasHead (kids : List DomNode) : Prop :=
  ∃ pre ha hk post,
    kids = pre ++ DomNode.elem "head" ha hk :: post ∧
    (∀ x ∈ pre, isTag "head" x = false) ∧
    ha.any (fun q => q.1 = "data-extension-id") = false

/-- As `HasHead`, and the head's children contain the given node. -/
def HasHeadWith (nd : DomNode) (kids : List DomNode) : Prop :=
  ∃ pre ha hk post,
    kids = pre ++ DomNode.elem "head" ha hk :: post ∧
    (∀ x ∈ pre, isTag "head" x = false) ∧
    ha.any (fun q => q.1 = "data-extension-id") = false ∧
    nd ∈ hk

/-- A small concrete document used to witness the assembler claim. -/
def docC10 : Doc :=
  ⟨none, "html", [],
   [DomNode.elem "head" [] [],
    DomNode.elem "body" [] [DomNode.textNode "hi"]]⟩

/-- The engine-state invariant threaded through the traversal: the visited
list only grows, stays duplicate-free, and with adequate fuel the
fuel-exhaustion flag is untouched. -/
def EngineInv (n : Nat) (fuel : Nat) (st st' : CollectSt n) : Prop :=
  (∃ ext, st'.visited = st.visited ++ ext) ∧
  (st.visited.Nodup → st'.visited.Nodup) ∧
  (st.visited.Nodup → n < fuel + st.visited.length → st'.ranOut = st.ranOut)

/-! # Theorems -/

/-! ## Selector Normalizer: claim C2 -/

/-- No character other than the colon itself lower-cases to a colon. -/
theorem toLower_eq_colon {c : Char} (h : c.toLower = ':') : c = ':' := by
  by_cases hc : c.toNat ≥ 65 ∧ c.toNat ≤ 90
  · exfalso
    have h' : Char.ofNat (c.toNat + 32) = ':' := by
      simpa [Char.toLower, hc] using h
    have h2 := congrArg Char.toNat h'
    have hv : (c.toNat + 32).isValidChar := Or.inl (by omega)
    rw [Char.ofNat, dif_pos hv] at h2
    have h3 : (Char.ofNatAux (c.toNat + 32) hv).toNat = c.toNat + 32 := rfl
    rw [h3] at h2
    have h58 : (':' : Char).toNat = 58 := rfl
    omega
  · simpa [Char.toLower, hc] using h

/-- The first removal only fires at a colon. -/
theorem matchBeforeAfter_none {c : Char} (t : List Char) (h : c ≠ ':') :
    matchBeforeAfter (c :: t) = none := by
  have hcl : ¬ (c.toLower = ':') := fun hh => h (toLower_eq_colon hh)
  have e1 : "::before".toList = [':', ':', 'b', 'e', 'f', 'o', 'r', 'e'] := rfl
  have e2 : ":before".toList = [':', 'b', 'e', 'f', 'o', 'r', 'e'] := rfl
  have e3 : "::after".toList = [':', ':', 'a', 'f', 't', 'e', 'r'] := rfl
  have e4 : ":after".toList = [':', 'a', 'f', 't', 'e', 'r'] := rfl
  simp [matchBeforeAfter, e1, e2, e3, e4, prefixCI, hcl]

/-- The second removal only fires at a colon. -/
theorem matchPseudoElem_none {c : Char} (t : List Char) (h : c ≠ ':') :
    matchPseudoElem (c :: t) = none := by
  cases t with
  | nil => rfl
  | cons c2 r => simp [matchPseudoElem, h]

/-- The third removal only fires at a colon. -/
theorem matchPseudoClass_none {c : Char} (t : List Char) (h : c ≠ ':') :
    matchPseudoClass (c :: t) = none := by
  have hcl : ¬ (c.toLower = ':') := fun hh => h (toLower_eq_colon hh)
  simp [matchPseudoClass, pseudoClassAlts, prefixCI, hcl]

/-- A removal pass whose matcher fires only at colons is the identity on
colon-free inputs. -/
theorem scanRemove_of_no_colon (m : List Char → Option Nat)
    (hm : ∀ c t, c ≠ ':' → m (c :: t) = none) :
    ∀ l : List Char, ':' ∉ l → scanRemove m l = l := by
  intro l
  induction l with
  | nil => intro _; simp [scanRemove]
  | cons c t ih =>
    intro h
    have hc : c ≠ ':' := fun hh => h (hh ▸ List.mem_cons_self c t)
    have ht : ':' ∉ t := fun hh => h (List.mem_cons_of_mem c hh)
    simp [scanRemove, hm c t hc, ih ht]

/-- Trimming is idempotent. -/
theorem strim_idem (l : List Char) : strim (strim l) = strim l := by
  unfold strim
  have h1 : List.dropWhile isWS
      (List.rdropWhile isWS (List.dropWhile isWS l)) =
      List.rdropWhile isWS (List.dropWhile isWS l) := by
    rw [List.dropWhile_eq_self_iff]
    intro hl
    have hp := List.rdropWhile_prefix isWS (List.dropWhile isWS l)
    have hlen : 0 < (List.dropWhile isWS l).length :=
      lt_of_lt_of_le hl hp.length_le
    have hg : (List.rdropWhile isWS (List.dropWhile isWS l)).get ⟨0, hl⟩ =
        (List.dropWhile isWS l).get ⟨0, hlen⟩ := by
      simpa using hp.getElem hl
    rw [hg]
    exact List.dropWhile_get_zero_not isWS l hlen
  rw [h1, List.rdropWhile_idempotent]

unseal scanRemove in
/-- C2, counterexample: `normalizeSelector` is not idempotent.  On
`":befo:hoverre"` the third removal deletes `:hover` and thereby splices
the surrounding fragments into `":before"`, which a second normalization
removes, so normalizing twice differs from normalizing once. -/
theorem normalizeSelector_not_idempotent :
    normalizeSelector (normalizeSelector ":befo:hoverre") ≠
      normalizeSelector ":befo:hoverre" := by decide

/-- C2, amended: `normalizeSelector` is a pure function, and it is
idempotent on every selector whose normalized form contains no colon (in
general a removal can splice together a new removable pseudo token, which
only a further pass removes). -/
theorem normalizeSelector_idem_of_no_colon (s : String)
    (h : ':' ∉ (normalizeSelector s).toList) :
    normalizeSelector (normalizeSelector s) = normalizeSelector s := by
  obtain ⟨data⟩ := s
  have htl : (normalizeSelector ⟨data⟩).toList =
      strim (scanRemove matchPseudoClass (scanRemove matchPseudoElem
        (scanRemove matchBeforeAfter data))) := rfl
  rw [htl] at h
  show String.mk (strim (scanRemove matchPseudoClass
    (scanRemove matchPseudoElem (scanRemove matchBeforeAfter
      (normalizeSelector ⟨data⟩).toList)))) = normalizeSelector ⟨data⟩
  rw [htl]
  rw [scanRemove_of_no_colon _ (fun c t hc => matchBeforeAfter_none t hc) _ h]
  rw [scanRemove_of_no_colon _ (fun c t hc => matchPseudoElem_none t hc) _ h]
  rw [scanRemove_of_no_colon _ (fun c t hc => matchPseudoClass_none t hc) _ h]
  rw [strim_idem]
  rfl

unseal scanRemove in
/-- C2, witness: the amended idempotence applies at `"a:hoverb"`, whose
normalized form `"ab"` is colon-free. -/
theorem normalizeSelector_idem_witness :
    ':' ∉ (normalizeSelector "a:hoverb").toList ∧
      normalizeSelector (normalizeSelector "a:hoverb") =
        normalizeSelector "a:hoverb" :=
  ⟨by decide,
   normalizeSelector_idem_of_no_colon "a:hoverb" (by decide)⟩

/-! ## Selector List Splitter: claim C3 -/

/-- The one-pass splitter loop computes exactly the trimmed, non-empty
clauses of the raw comma segmentation. -/
theorem splitAux_eq_rawSegments (l : List Char) : ∀ q d p cur,
    splitAux q d p cur l =
      ((rawSegments q d p cur l).map strim).filter (fun x => !x.isEmpty) := by
  induction l with
  | nil =>
    intro q d p cur
    simp only [splitAux, rawSegments, List.map_cons, List.map_nil,
      List.filter_cons, List.filter_nil]
    cases hE : (strim cur.reverse).isEmpty <;> simp [hE]
  | cons c rest ih =>
    intro q d p cur
    cases q with
    | some qc =>
      simp only [splitAux, rawSegments]
      split_ifs <;> apply ih
    | none =>
      simp only [splitAux, rawSegments]
      split_ifs with h1 h2 h3 h4 h5
      · apply ih
      · apply ih
      · apply ih
      · rw [ih]
        simp [List.map_cons, List.filter_cons, h5]
      · rw [ih]
        simp [List.map_cons, List.filter_cons, h5]
      · apply ih

/-- The splitter agrees with the spec-side two-phase description on every
input. -/
theorem splitSelectors_eq_fromSpec (s : String) :
    splitSelectors s = splitSelectorsFromSpec s := by
  unfold splitSelectors splitSelectorsFromSpec
  rw [splitAux_eq_rawSegments]

/-- Every clause the splitter returns is non-empty and trimmed. -/
theorem splitSelectors_clauses (s : String) :
    ∀ c ∈ splitSelectors s, c ≠ "" ∧ strim c.toList = c.toList := by
  intro c hc
  rw [splitSelectors_eq_fromSpec] at hc
  unfold splitSelectorsFromSpec at hc
  obtain ⟨x, hx, rfl⟩ := List.mem_map.mp hc
  have hfil := List.mem_filter.mp hx
  obtain ⟨y, hy, rfl⟩ := List.mem_map.mp hfil.1
  constructor
  · intro hmk
    have hnil : strim y = [] := by
      have := congrArg String.toList hmk
      simpa using this
    simp [hnil] at hfil
  · show strim (String.mk (strim y)).toList = (String.mk (strim y)).toList
    simpa using strim_idem y

/-- The raw segmentation never produces an empty list of segments. -/
theorem rawSegments_ne_nil :
    ∀ (l : List Char) (q : Option Char) (d : Nat) (p : Option Char)
      (cur : List Char), rawSegments q d p cur l ≠ [] := by
  intro l
  induction l with
  | nil => intro q d p cur; simp [rawSegments]
  | cons c rest ih =>
    intro q d p cur
    simp only [rawSegments]
    cases q with
    | some qc =>
      dsimp only
      split
      · exact ih _ _ _ _
      · exact ih _ _ _ _
    | none =>
      dsimp only
      split
      · exact ih _ _ _ _
      · split
        · exact ih _ _ _ _
        · split
          · exact ih _ _ _ _
          · split
            · simp
            · exact ih _ _ _ _

theorem intercalate_cons_of_ne_nil {s x : List Char} {xs : List (List Char)}
    (h : xs ≠ []) :
    List.intercalate s (x :: xs) = x ++ s ++ List.intercalate s xs := by
  cases xs with
  | nil => exact absurd rfl h
  | cons y t => simp [List.intercalate, List.intersperse]

/-- Joining the raw segments back with single commas reconstructs the
input: the spec-side segmentation is exactly a partition of the input at
the separating commas (those outside quoted regions and nesting). -/
theorem rawSegments_intercalate :
    ∀ (l : List Char) (q : Option Char) (d : Nat) (p : Option Char)
      (cur : List Char),
      List.intercalate [','] (rawSegments q d p cur l) =
        cur.reverse ++ l := by
  intro l
  induction l with
  | nil =>
    intro q d p cur
    simp [rawSegments, List.intercalate, List.intersperse]
  | cons c rest ih =>
    intro q d p cur
    simp only [rawSegments]
    cases q with
    | some qc =>
      dsimp only
      split
      · rw [ih]; simp
      · rw [ih]; simp
    | none =>
      dsimp only
      split
      · rw [ih]; simp
      · split
        · rw [ih]; simp
        · split
          · rw [ih]; simp
          · split
            · rename_i hcomma
              rw [intercalate_cons_of_ne_nil (rawSegments_ne_nil _ _ _ _ _),
                ih]
              simp only [Bool.and_eq_true, decide_eq_true_eq] at hcomma
              simp [hcomma.1]
            · rw [ih]; simp

/-- C3 (confirmed): for every selector-list string the splitter returns the
ordered trimmed, non-empty clauses obtained by splitting only at commas
outside quoted strings (backslash-escaped quotes do not close a region)
and outside bracket/paren nesting — it equals the spec-side two-phase
segmentation, is total by construction, every returned clause is
non-empty and trimmed (so the empty clause after a trailing comma is
dropped), and rejoining the raw segments with commas reconstructs the
input, so the segmentation really is the input split at its separating
commas. -/
theorem splitSelectors_correct (s : String) :
    splitSelectors s = splitSelectorsFromSpec s ∧
      (∀ c ∈ splitSelectors s, c ≠ "" ∧ strim c.toList = c.toList) ∧
      List.intercalate [','] (rawSegments none 0 none [] s.toList) =
        s.toList :=
  ⟨splitSelectors_eq_fromSpec s, splitSelectors_clauses s,
   rawSegments_intercalate s.toList none 0 none []⟩

/-- C3, witness: concrete application on `".a,, .b "`, whose first clause
is `".a"`. -/
theorem splitSelectors_correct_witness :
    splitSelectors ".a,, .b " = splitSelectorsFromSpec ".a,, .b " ∧
      ".a" ∈ splitSelectors ".a,, .b " ∧
      ".a" ≠ "" ∧ strim ".a".toList = ".a".toList :=
  ⟨(splitSelectors_correct ".a,, .b ").1, by decide,
   (splitSelectors_correct ".a,, .b ").2.1 ".a" (by decide)⟩

/-! ## Fetch Relay: claims C6, C8, C9 -/

/-- C6 (confirmed): the privileged `FETCH_CSS` listener performs the same
credentialed direct retrieval and applies the identical success/failure
classification as the direct path of `fetchStylesheetText`: its structured
`{ok, text?, error?}` response carries exactly the direct path's text and
error, with `ok` mirroring success. -/
theorem bgListener_matches_direct :
    (∀ u, bgFetchRequest u = directFetchRequest u) ∧
      ∀ o, bgFetchCssClassify o =
        ⟨(directFetchClassify o).text.isSome, (directFetchClassify o).text,
          (directFetchClassify o).error⟩ := by
  refine ⟨fun u => rfl, fun o => ?_⟩
  cases o with
  | resp s t =>
    by_cases h : respOk s <;>
      simp [bgFetchCssClassify, directFetchClassify, h]
  | err m => rfl

/-- Each classifier yields exactly one of text or error. -/
theorem relayFetchClassify_shape (b : RelayBehavior) :
    ((relayFetchClassify b).text.isSome ∧ (relayFetchClassify b).error = none) ∨
      ((relayFetchClassify b).text = none ∧
        (relayFetchClassify b).error.isSome) := by
  unfold relayFetchClassify
  set response := relayPromise b with hr
  by_cases h : (!response.ok || jsFalsyStr response.text) = true
  · rw [if_pos h]; right; simp
  · rw [if_neg h]
    left
    refine ⟨?_, rfl⟩
    cases ht : response.text with
    | none => simp [jsFalsyStr, ht] at h
    | some s => simp

/-- The direct classifier yields exactly one of text or error. -/
theorem directFetchClassify_shape (o : FetchOutcome) :
    ((directFetchClassify o).text.isSome ∧
        (directFetchClassify o).error = none) ∨
      ((directFetchClassify o).text = none ∧
        (directFetchClassify o).error.isSome) := by
  cases o with
  | resp s t => by_cases h : respOk s <;> simp [directFetchClassify, h]
  | err m => right; simp [directFetchClassify]

/-- C8 (confirmed): `fetchStylesheetText` never raises — every
configuration, relay behaviour and network outcome is classified as either
stylesheet text or a failure reason; a never-responding relay resolves to
the `Background fetch timeout` failure, settling exactly at the 3000 ms
bound (and every relay call settles within that bound); and a response
arriving at or after the timeout is ignored: the result is identical to
never responding. -/
theorem fetchStylesheetText_total_timeout :
    (∀ cfg b o,
      ((fetchStylesheetText cfg b o).text.isSome ∧
          (fetchStylesheetText cfg b o).error = none) ∨
        ((fetchStylesheetText cfg b o).text = none ∧
          (fetchStylesheetText cfg b o).error.isSome)) ∧
      relayFetchClassify .noResponse =
        ⟨none, some "Background fetch timeout"⟩ ∧
      relaySettleTime .noResponse = relayTimeoutMs ∧
      (∀ b, relaySettleTime b ≤ relayTimeoutMs) ∧
      (∀ t r, relayTimeoutMs ≤ t →
        relayFetchClassify (.respondsAt t r) =
          relayFetchClassify .noResponse) := by
  refine ⟨?_, rfl, rfl, ?_, ?_⟩
  · intro cfg b o
    unfold fetchStylesheetText
    by_cases h : (cfg.useHostFetch && cfg.relayAvailable) = true
    · rw [if_pos h]; exact relayFetchClassify_shape b
    · rw [if_neg h]; exact directFetchClassify_shape o
  · intro b
    cases b <;> simp [relaySettleTime]
  · intro t r ht
    unfold relayFetchClassify relayPromise
    have : ¬ t < relayTimeoutMs := by omega
    simp [this]

/-- C8, witness: a response arriving at 3500 ms (after the 3000 ms bound)
is ignored. -/
theorem fetchStylesheetText_total_timeout_witness :
    relayTimeoutMs ≤ 3500 ∧
      relayFetchClassify (.respondsAt 3500 (some ⟨true, some "late", none⟩)) =
        relayFetchClassify .noResponse :=
  ⟨by decide,
   fetchStylesheetText_total_timeout.2.2.2.2 3500
     (some ⟨true, some "late", none⟩) (by decide)⟩

/-- C9 (confirmed): a structurally well-formed relay success whose text is
the empty string is classified by `fetchStylesheetText` as the failure
`Background fetch failed` (the `!response.text` test treats `""` as falsy),
and a blocked stylesheet whose relay fetch yields exactly that result gets
the blocked warning followed by a fetch-failure warning, contributing no
rule text. -/
theorem emptyRelayText_classified_failure :
    relayFetchClassify (.respondsAt 0 (some ⟨true, some "", none⟩)) =
      ⟨none, some "Background fetch failed"⟩ ∧
      (collectFromStylesheet envC9 1 0 (initSt 1)).warnings =
        ["cssRules blocked for stylesheet: https://cdn.example/empty.css",
         "Failed to fetch stylesheet: https://cdn.example/empty.css (Background fetch failed)"] ∧
      (collectFromStylesheet envC9 1 0 (initSt 1)).usedRules = [] := by
  refine ⟨rfl, ?_, ?_⟩ <;>
    simp [collectFromStylesheet, envC9, initSt, jsFalsyStr, jsToStr,
      fetchStylesheetText, relayFetchClassify, relayPromise, relayTimeoutMs,
      jsOrStr]

/-! ## Collection Engine: claims C1, C4, C7 -/

/-- C1, counterexample: the engine keeps a media group whose children
survive even when the group's condition is unsatisfiable under the host's
media-query evaluation — the code never consults any media evaluation
primitive.  Under the always-false evaluation oracle `mediaNotSat`, the
media-wrapped text is still collected. -/
theorem mediaGroup_kept_despite_unsat :
    mediaNotSat "(min-width: 9999px)" = false ∧
      (collectUsedCss envC1 [0]).1.usedRules =
        ["@media (min-width: 9999px)\x7b.a\x7bcolor:red\x7d\x7d"] := by
  refine ⟨rfl, ?_⟩
  have h : splitSelectors ".a" = [".a"] := by decide
  simp [collectUsedCss, runSheets, collectFromStylesheet, collectRules,
    collectRule, envC1, initSt, selectorMatches, h, String.join]

/-- C1, amended: the engine keeps a media group's text, wrapped in its
original condition, if and only if at least one child rule survived the
relevance filter; the media condition's own satisfiability is never
consulted (no media-evaluation primitive occurs in the dispatch). -/
theorem collectRule_media_eq {n : Nat} (env : CollectEnv n) (fuel : Nat)
    (cond : String) (children : List (CSSRule n)) (st : CollectSt n) :
    collectRule env fuel (.mediaRule cond children) st =
      ((if (collectRules env fuel children st).1.isEmpty then []
        else ["@media " ++ cond ++ "\x7b" ++
          String.join (collectRules env fuel children st).1 ++ "\x7d"]),
       (collectRules env fuel children st).2) := by
  rw [collectRule.eq_def]

/-- C7 (confirmed): a sheet whose rule-list access is blocked and whose
fallback fetch fails leaves the capture successful: exactly the two
warnings (blocked notice, then fetch-failure notice carrying the failure
reason) are appended, no rule text, font-face or keyframe is contributed,
the sheet is marked visited, and the traversal continues with the
remaining sheets. -/
theorem blockedSheet_appends_two_warnings {n : Nat} (env : CollectEnv n)
    (i : Fin n) (st : CollectSt n) (h : String) (fuel : Nat)
    (hv : i ∉ st.visited)
    (hacc : (env.sheets i).accessible = false)
    (hhref : (env.sheets i).href = some h)
    (hfail : (env.sheets i).fetchResult.text = none) :
    collectFromStylesheet env (fuel + 1) i st =
      { st with visited := st.visited ++ [i],
                warnings := st.warnings ++
                  ["cssRules blocked for stylesheet: " ++ h,
                   "Failed to fetch stylesheet: " ++ h ++ " (" ++
                     jsToStr (env.sheets i).fetchResult.error ++ ")"] } ∧
      (∀ rest, runSheets env (fuel + 1) (i :: rest) st =
        runSheets env (fuel + 1) rest (collectFromStylesheet env (fuel + 1) i st)) := by
  constructor
  · rw [collectFromStylesheet]
    rw [if_neg hv]
    simp [hacc, hhref, jsFalsyStr, hfail]
  · intro rest
    rfl

/-- C7, witness: the blocked path at the concrete one-sheet environment
`envC7`, whose fetch fails with `HTTP 404`. -/
theorem blockedSheet_appends_two_warnings_witness :
    (0 : Fin 1) ∉ (initSt 1).visited ∧
      collectFromStylesheet envC7 1 0 (initSt 1) =
        { initSt 1 with visited := (initSt 1).visited ++ [0], warnings := (initSt 1).warnings ++ ["cssRules blocked for stylesheet: https://cdn.example/site.css", "Failed to fetch stylesheet: https://cdn.example/site.css (" ++ jsToStr (envC7.sheets 0).fetchResult.error ++ ")"] } :=
  ⟨by decide,
   (blockedSheet_appends_two_warnings envC7 0 (initSt 1)
     "https://cdn.example/site.css" 0 (by decide) rfl rfl rfl).1⟩

/-- The engine-state invariant holds reflexively. -/
theorem engineInvRefl {n fuel : Nat} (st : CollectSt n) :
    EngineInv n fuel st st :=
  ⟨⟨[], by simp⟩, id, fun _ _ => rfl⟩

/-- A state transition that changes neither the visited list nor the
fuel-exhaustion flag satisfies the invariant. -/
theorem engineInvOfEq {n fuel : Nat} {st st' : CollectSt n}
    (hv : st'.visited = st.visited) (hr : st'.ranOut = st.ranOut) :
    EngineInv n fuel st st' :=
  ⟨⟨[], by simp [hv]⟩, fun hn => hv ▸ hn, fun _ _ => hr⟩

/-- The engine-state invariant composes. -/
theorem engineInvTrans {n fuel : Nat} {st1 st2 st3 : CollectSt n}
    (h12 : EngineInv n fuel st1 st2) (h23 : EngineInv n fuel st2 st3) :
    EngineInv n fuel st1 st3 := by
  obtain ⟨⟨e1, he1⟩, hn1, hr1⟩ := h12
  obtain ⟨⟨e2, he2⟩, hn2, hr2⟩ := h23
  refine ⟨⟨e1 ++ e2, by rw [he2, he1, List.append_assoc]⟩,
    fun hn => hn2 (hn1 hn), fun hn hlen => ?_⟩
  have hlen2 : n < fuel + st2.visited.length := by
    rw [he1, List.length_append]; omega
  rw [hr2 (hn1 hn) hlen2, hr1 hn hlen]

/-- Marking a fresh sheet visited and then running with one unit less fuel
preserves the invariant at the original fuel. -/
theorem engineInvStep {n f : Nat} {st st2 : CollectSt n} {i : Fin n}
    (hv : i ∉ st.visited)
    (h2 : EngineInv n f { st with visited := st.visited ++ [i] } st2) :
    EngineInv n (f + 1) st st2 := by
  obtain ⟨⟨e, he⟩, hn2, hr2⟩ := h2
  refine ⟨⟨[i] ++ e, by rw [he]; simp⟩, fun hn => hn2 ?_,
    fun hn hlen => hr2 ?_ ?_⟩
  · simp [List.nodup_append, hn, hv]
  · simp [List.nodup_append, hn, hv]
  · simp only [List.length_append, List.length_cons, List.length_nil]
    omega

/-- The invariant holds across `collectRules`, given it holds for every
sheet-level call at the same fuel.  Strong induction on the size of the
rule list (children recursion shrinks the size, import recursion goes
through the sheet hypothesis). -/
theorem rulesInvAux {n : Nat} (env : CollectEnv n) (fuel : Nat)
    (hsheet : ∀ (i : Fin n) st,
      EngineInv n fuel st (collectFromStylesheet env fuel i st)) :
    ∀ (rs : List (CSSRule n)) (st : CollectSt n),
      EngineInv n fuel st ((collectRules env fuel rs st).2) := by
  suffices H : ∀ (k : Nat) (rs : List (CSSRule n)) (st : CollectSt n),
      sizeOf rs ≤ k → EngineInv n fuel st ((collectRules env fuel rs st).2) by
    intro rs st
    exact H (sizeOf rs) rs st le_rfl
  intro k
  induction k using Nat.strong_induction_on with
  | _ k ihk =>
    intro rs st hsz
    cases rs with
    | nil => rw [collectRules]; exact engineInvRefl st
    | cons r rest =>
      rw [collectRules]
      have hrest : sizeOf rest < k := by
        have := List.cons.sizeOf_spec r rest
        have hr1 : 1 ≤ sizeOf r := by
          cases r <;> simp_arith
        omega
      have hr : EngineInv n fuel st ((collectRule env fuel r st).2) := by
        cases r with
        | styleRule sel css =>
          rw [collectRule.eq_def]
          dsimp only
          exact engineInvRefl st
        | mediaRule cond children =>
          rw [collectRule.eq_def]
          dsimp only
          have hlt : sizeOf children < k := by
            have h1 := List.cons.sizeOf_spec (CSSRule.mediaRule cond children) rest
            have h2 : sizeOf (CSSRule.mediaRule cond children) =
                1 + sizeOf cond + sizeOf children := by simp
            omega
          exact ihk (sizeOf children) hlt children st le_rfl
        | supportsRule cond children =>
          rw [collectRule.eq_def]
          dsimp only
          by_cases hs : (!env.supports cond) = true
          · rw [if_pos hs]; exact engineInvRefl st
          · rw [if_neg hs]
            have hlt : sizeOf children < k := by
              have h1 := List.cons.sizeOf_spec (CSSRule.supportsRule cond children) rest
              have h2 : sizeOf (CSSRule.supportsRule cond children) =
                  1 + sizeOf cond + sizeOf children := by simp
              omega
            exact ihk (sizeOf children) hlt children st le_rfl
        | keyframesRule css =>
          rw [collectRule.eq_def]
          dsimp only
          exact engineInvOfEq rfl rfl
        | fontFaceRule css =>
          rw [collectRule.eq_def]
          dsimp only
          exact engineInvOfEq rfl rfl
        | importRule target =>
          rw [collectRule.eq_def]
          dsimp only
          cases target with
          | none => exact engineInvRefl st
          | some i =>
            dsimp only
            by_cases hv : i ∈ st.visited
            · rw [if_pos hv]; exact engineInvRefl st
            · rw [if_neg hv]; exact hsheet i st
        | groupingRule css children =>
          rw [collectRule.eq_def]
          dsimp only
          have hlt : sizeOf children < k := by
            have h1 := List.cons.sizeOf_spec (CSSRule.groupingRule css children) rest
            have h2 : sizeOf (CSSRule.groupingRule css children) =
                1 + sizeOf css + sizeOf children := by simp
            omega
          exact ihk (sizeOf children) hlt children st le_rfl
      exact engineInvTrans hr (ihk (sizeOf rest) hrest rest _ le_rfl)

/-- The invariant holds for every sheet-level call, by induction on fuel:
a sheet is skipped when already visited, and otherwise marked visited
before anything else; the fuel-exhaustion flag can only be set when a
duplicate-free visited list already has more than `n` entries, which is
impossible. -/
theorem sheetInvAll {n : Nat} (env : CollectEnv n) :
    ∀ (fuel : Nat) (i : Fin n) (st : CollectSt n),
      EngineInv n fuel st (collectFromStylesheet env fuel i st) := by
  intro fuel
  induction fuel with
  | zero =>
    intro i st
    rw [collectFromStylesheet.eq_def]
    dsimp only
    by_cases hv : i ∈ st.visited
    · rw [if_pos hv]; exact engineInvRefl st
    · rw [if_neg hv]
      refine ⟨⟨[i], rfl⟩, fun hn => ?_, fun hn hlen => ?_⟩
      · simp [List.nodup_append, hn, hv]
      · exfalso
        have hle : st.visited.length ≤ n := by
          have hh := List.Nodup.length_le_card hn
          simpa using hh
        omega
  | succ f ihf =>
    intro i st
    rw [collectFromStylesheet.eq_def]
    dsimp only
    by_cases hv : i ∈ st.visited
    · rw [if_pos hv]; exact engineInvRefl st
    · rw [if_neg hv]
      have hrules := rulesInvAux env f ihf
      by_cases hacc : (env.sheets i).accessible = true
      · rw [if_pos hacc]
        have h23 := hrules (env.sheets i).rules
          { st with visited := st.visited ++ [i] }
        exact engineInvStep hv (engineInvTrans h23 (engineInvOfEq rfl rfl))
      · rw [if_neg hacc]
        cases hhref : (env.sheets i).href with
        | none =>
          dsimp only
          exact engineInvStep hv (engineInvRefl _)
        | some h =>
          dsimp only
          by_cases hfail : jsFalsyStr (env.sheets i).fetchResult.text = true
          · rw [if_pos hfail]
            exact engineInvStep hv (engineInvOfEq rfl rfl)
          · rw [if_neg hfail]
            have h12 : EngineInv n f { st with visited := st.visited ++ [i] } { st with visited := st.visited ++ [i], warnings := st.warnings ++ ["cssRules blocked for stylesheet: " ++ h] } :=
              engineInvOfEq rfl rfl
            have h23 := hrules (env.sheets i).fetchedRules { st with visited := st.visited ++ [i], warnings := st.warnings ++ ["cssRules blocked for stylesheet: " ++ h] }
            exact engineInvStep hv
              (engineInvTrans h12 (engineInvTrans h23 (engineInvOfEq rfl rfl)))

/-- C4 (confirmed): for every environment — every finite set of sheets and
every import graph over them, cycles and self-imports included — the
capture traversal processes each sheet at most once (the visited list,
to which a sheet is appended before its rules are examined, stays
duplicate-free) and terminates: the fuel budget `n + 1` allotted by
`collectUsedCss` is never exhausted. -/
theorem traversal_no_revisit_terminates {n : Nat} (env : CollectEnv n)
    (order : List (Fin n)) :
    (collectUsedCss env order).1.visited.Nodup ∧
      (collectUsedCss env order).1.ranOut = false := by
  suffices H : ∀ (st : CollectSt n), st.visited.Nodup → st.ranOut = false →
      (runSheets env (n + 1) order st).visited.Nodup ∧
        (runSheets env (n + 1) order st).ranOut = false by
    exact H (initSt n) (by simp [initSt]) rfl
  induction order with
  | nil => intro st h1 h2; exact ⟨h1, h2⟩
  | cons i rest ih =>
    intro st h1 h2
    obtain ⟨⟨e, he⟩, hn, hr⟩ := sheetInvAll env (n + 1) i st
    have hnodup := hn h1
    have hlen : n < (n + 1) + st.visited.length := by omega
    have hro : (collectFromStylesheet env (n + 1) i st).ranOut = st.ranOut :=
      hr h1 hlen
    exact ih _ hnodup (by rw [hro, h2])

/-! ## Snapshot Assembler: claim C10 -/

/-- Pruning distributes over forest concatenation. -/
theorem pruneKids_append (p : DomNode → Bool) (a b : List DomNode) :
    pruneKids p (a ++ b) = pruneKids p a ++ pruneKids p b := by
  induction a with
  | nil => rfl
  | cons x r ih => simp [pruneKids, ih]

/-- Pruning a node does not change its tag. -/
theorem isTag_pruneNode (t : String) (p : DomNode → Bool) (x : DomNode) :
    isTag t (pruneNode p x) = isTag t x := by
  cases x <;> rfl

/-- An unmatched member survives pruning (pruned itself). -/
theorem mem_pruneKids_of_mem {p : DomNode → Bool} {x : DomNode}
    {l : List DomNode} (hx : x ∈ l) (hp : p x = false) :
    pruneNode p x ∈ pruneKids p l := by
  induction l with
  | nil => cases hx
  | cons y r ih =>
    rw [pruneKids]
    rcases List.mem_cons.mp hx with rfl | hxr
    · rw [hp]
      simp
    · have hmem : pruneNode p x ∈ pruneKids p r := ih hxr
      rcases hpy : p y with hf | ht
      · simp [hpy, hmem]
      · simp [hpy, hmem]

/-- Every member of a pruned forest is the pruning of an unmatched member. -/
theorem mem_pruneKids {p : DomNode → Bool} {y : DomNode} {l : List DomNode}
    (hy : y ∈ pruneKids p l) :
    ∃ x ∈ l, p x = false ∧ y = pruneNode p x := by
  induction l with
  | nil => cases hy
  | cons x r ih =>
    rw [pruneKids] at hy
    rcases List.mem_append.mp hy with h1 | h2
    · rcases hpx : p x with hf | ht
      · rw [hpx] at h1
        simp at h1
        exact ⟨x, List.mem_cons_self x r, hpx, h1⟩
      · rw [hpx] at h1
        simp at h1
    · obtain ⟨z, hz, hpz, rfl⟩ := ih h2
      exact ⟨z, List.mem_cons_of_mem x hz, hpz, rfl⟩

/-- The freeze style node is untouched by any pass that keeps text nodes. -/
theorem pruneNode_freeze {p : DomNode → Bool}
    (hText : ∀ s, p (.textNode s) = false) :
    pruneNode p freezeStyleNode = freezeStyleNode := by
  show DomNode.elem "style" [("data-pc-freeze", "true")]
      (pruneKids p [.textNode freezeCssText]) = freezeStyleNode
  rw [pruneKids, hText, pruneKids]
  rfl

/-- A pass that removes neither the head, the freeze node, nor text nodes
preserves the located freeze node. -/
theorem hasHeadWith_prune {p : DomNode → Bool} {kids : List DomNode}
    (hHead : ∀ ha hk, ha.any (fun q => q.1 = "data-extension-id") = false →
      p (DomNode.elem "head" ha hk) = false)
    (hFreeze : p freezeStyleNode = false)
    (hText : ∀ s, p (.textNode s) = false)
    (h : HasHeadWith freezeStyleNode kids) :
    HasHeadWith freezeStyleNode (pruneKids p kids) := by
  obtain ⟨pre, ha, hk, post, rfl, hpre, hattr, hmem⟩ := h
  refine ⟨pruneKids p pre, ha, pruneKids p hk, pruneKids p post, ?_, ?_, hattr, ?_⟩
  · rw [pruneKids_append, pruneKids, hHead ha hk hattr]
    rfl
  · intro y hy
    obtain ⟨x, hx, hpx, rfl⟩ := mem_pruneKids hy
    rw [isTag_pruneNode]
    exact hpre x hx
  · have := mem_pruneKids_of_mem hmem hFreeze
    rwa [pruneNode_freeze hText] at this

/-- Appending targets exactly the first head of the decomposition. -/
theorem appendToFirst_decomp (nd : DomNode) (pre : List DomNode)
    (ha : List (String × String)) (hk post : List DomNode)
    (hpre : ∀ x ∈ pre, isTag "head" x = false) :
    appendToFirst "head" nd (pre ++ DomNode.elem "head" ha hk :: post) =
      pre ++ DomNode.elem "head" ha (hk ++ [nd]) :: post := by
  induction pre with
  | nil =>
    rw [List.nil_append, List.nil_append, appendToFirst]
    simp
  | cons x r ih =>
    have hx := hpre x (List.mem_cons_self x r)
    have hr : ∀ y ∈ r, isTag "head" y = false :=
      fun y hy => hpre y (List.mem_cons_of_mem x hy)
    cases x with
    | elem t a cs =>
      have ht : ¬ t = "head" := by simpa [isTag] using hx
      simp [appendToFirst, ht, ih hr]
    | textNode s => simp [appendToFirst, ih hr]

/-- Injecting a node into the head locates that node. -/
theorem hasHead_appendToFirst {kids : List DomNode} (nd : DomNode)
    (h : HasHead kids) : HasHeadWith nd (appendToFirst "head" nd kids) := by
  obtain ⟨pre, ha, hk, post, rfl, hpre, hattr⟩ := h
  rw [appendToFirst_decomp nd pre ha hk post hpre]
  exact ⟨pre, ha, hk ++ [nd], post, rfl, hpre, hattr, by simp⟩

/-- Appending another node to the head keeps the located node. -/
theorem hasHeadWith_appendToFirst {kids : List DomNode} {nd : DomNode}
    (x : DomNode) (h : HasHeadWith nd kids) :
    HasHeadWith nd (appendToFirst "head" x kids) := by
  obtain ⟨pre, ha, hk, post, rfl, hpre, hattr, hmem⟩ := h
  rw [appendToFirst_decomp x pre ha hk post hpre]
  exact ⟨pre, ha, hk ++ [x], post, rfl, hpre, hattr,
    List.mem_append_left _ hmem⟩

/-- The clean-up removal undoes the freeze injection exactly. -/
theorem removeLast_appendToFirst (nd : DomNode) (kids : List DomNode) :
    removeLastOfFirst "head" (appendToFirst "head" nd kids) = kids := by
  induction kids with
  | nil => rfl
  | cons x r ih =>
    cases x with
    | elem t a cs =>
      by_cases ht : t = "head"
      · simp [appendToFirst, removeLastOfFirst, ht]
      · simp [appendToFirst, removeLastOfFirst, ht, ih]
    | textNode s => simp [appendToFirst, removeLastOfFirst, ih]

/-- Serialization distributes over forest concatenation. -/
theorem serializeKids_append (a b : List DomNode) :
    serializeKids (a ++ b) = serializeKids a ++ serializeKids b := by
  induction a with
  | nil => simp [serializeKids]
  | cons x r ih => simp [serializeKids, ih, String.append_assoc]

/-- A located node appears verbatim inside the serialized forest. -/
theorem serialize_contains {nd : DomNode} {kids : List DomNode}
    (h : HasHeadWith nd kids) :
    ∃ u v, serializeKids kids = u ++ serializeNode nd ++ v := by
  obtain ⟨pre, ha, hk, post, rfl, hpre, hattr, hmem⟩ := h
  obtain ⟨s1, s2, rfl⟩ := List.append_of_mem hmem
  rw [serializeKids_append]
  refine ⟨serializeKids pre ++ ("<head" ++ serializeAttrs ha ++ ">") ++
    serializeKids s1, serializeKids s2 ++ "</head>" ++ serializeKids post, ?_⟩
  show serializeKids pre ++ serializeKids (DomNode.elem "head" ha (s1 ++ nd :: s2) :: post) = _
  rw [serializeKids]
  rw [serializeNode]
  rw [serializeKids_append]
  rw [serializeKids]
  simp [String.append_assoc]

end PageSnap
namespace PageSnap

/-- C10 (confirmed): the freeze style element injected before cloning is
present in the cloned tree and survives every pruning pass; whenever
`removeOriginalStyles` is false the final serialized document text contains
the serialized freeze override (disabling animations, transitions and
smooth scrolling) as a substring, while the live document gets it removed
again at clean-up, ending exactly as it started. -/
theorem freeze_style_survives (opts : CloneOptions) (css : String) (doc : Doc)
    (hro : opts.removeOriginalStyles = false)
    (hh : HasHead doc.rootChildren) :
    (∃ u v, (snapshotSerialize opts css doc).1 =
        u ++ serializeNode freezeStyleNode ++ v) ∧
      (snapshotSerialize opts css doc).2 = doc := by
  have hBase : ∀ (ha : List (String × String)) (hk : List DomNode),
      ha.any (fun q => q.1 = "data-extension-id") = false →
      isTag "base" (DomNode.elem "head" ha hk) = false := fun _ _ _ => rfl
  have hUi : ∀ (ha : List (String × String)) (hk : List DomNode),
      ha.any (fun q => q.1 = "data-extension-id") = false →
      extUiTest (DomNode.elem "head" ha hk) = false := fun _ _ _ => rfl
  have hAttr : ∀ (ha : List (String × String)) (hk : List DomNode),
      ha.any (fun q => q.1 = "data-extension-id") = false →
      hasAttr "data-extension-id" (DomNode.elem "head" ha hk) = false :=
    fun _ _ h => h
  have hScript : ∀ (ha : List (String × String)) (hk : List DomNode),
      ha.any (fun q => q.1 = "data-extension-id") = false →
      scriptsTest (DomNode.elem "head" ha hk) = false := fun _ _ _ => rfl
  have h0 : HasHeadWith freezeStyleNode
      (appendToFirst "head" freezeStyleNode doc.rootChildren) :=
    hasHead_appendToFirst _ hh
  have h1 := hasHeadWith_prune hBase rfl (fun _ => rfl) h0
  have h2 := hasHeadWith_prune hUi rfl (fun _ => rfl) h1
  have h3 := hasHeadWith_prune hAttr rfl (fun _ => rfl) h2
  have h4 : HasHeadWith freezeStyleNode
      (if opts.removeScripts then
        pruneKids scriptsTest
          (pruneKids (hasAttr "data-extension-id")
            (pruneKids extUiTest
              (pruneKids (isTag "base")
                (appendToFirst "head" freezeStyleNode doc.rootChildren))))
       else
        pruneKids (hasAttr "data-extension-id")
          (pruneKids extUiTest
            (pruneKids (isTag "base")
              (appendToFirst "head" freezeStyleNode doc.rootChildren)))) := by
    by_cases hrs : opts.removeScripts
    · rw [if_pos hrs]
      exact hasHeadWith_prune hScript rfl (fun _ => rfl) h3
    · rw [if_neg hrs]
      exact h3
  constructor
  · -- the serialized text contains the freeze override
    unfold snapshotSerialize
    rw [hro]
    dsimp only
    simp only [Bool.false_eq_true, if_false]
    rw [if_neg (show ¬(("" : String) ≠ "") from fun hc => hc rfl)]
    have h7 : HasHeadWith freezeStyleNode
        (if opts.addCsp = true then
          appendToFirst "head" cspMetaNode
            (if opts.removeScripts = true then
              pruneKids scriptsTest
                (pruneKids (hasAttr "data-extension-id")
                  (pruneKids extUiTest
                    (pruneKids (isTag "base")
                      (appendToFirst "head" freezeStyleNode doc.rootChildren))))
            else
              pruneKids (hasAttr "data-extension-id")
                (pruneKids extUiTest
                  (pruneKids (isTag "base")
                    (appendToFirst "head" freezeStyleNode doc.rootChildren))))
        else
          (if opts.removeScripts = true then
            pruneKids scriptsTest
              (pruneKids (hasAttr "data-extension-id")
                (pruneKids extUiTest
                  (pruneKids (isTag "base")
                    (appendToFirst "head" freezeStyleNode doc.rootChildren))))
          else
            pruneKids (hasAttr "data-extension-id")
              (pruneKids extUiTest
                (pruneKids (isTag "base")
                  (appendToFirst "head" freezeStyleNode doc.rootChildren))))) := by
      by_cases hcsp : opts.addCsp = true
      · rw [if_pos hcsp]
        exact hasHeadWith_appendToFirst _ h4
      · rw [if_neg hcsp]
        exact h4
    obtain ⟨a, b, hab⟩ := serialize_contains h7
    refine ⟨(match doc.doctypeName with
        | some nm => "<!DOCTYPE " ++ nm ++ ">"
        | none => "<!DOCTYPE html>") ++ "
" ++
        ("<" ++ doc.rootTag ++ serializeAttrs doc.rootAttrs ++ ">") ++ a,
      b ++ ("</" ++ doc.rootTag ++ ">"), ?_⟩
    rw [serializeNode]
    rw [hab]
    simp [String.append_assoc]
  · unfold snapshotSerialize
    dsimp only
    rw [removeLast_appendToFirst]

/-- C10, witness: the pipeline at a concrete document with an empty head
and a body, with scripts removed and the policy tag added. -/
theorem freeze_style_survives_witness :
    (⟨true, false, false, true⟩ : CloneOptions).removeOriginalStyles = false ∧
      HasHead docC10.rootChildren ∧
      ((∃ u v, (snapshotSerialize ⟨true, false, false, true⟩ "x" docC10).1 =
          u ++ serializeNode freezeStyleNode ++ v) ∧
        (snapshotSerialize ⟨true, false, false, true⟩ "x" docC10).2 = docC10) :=
  ⟨rfl,
   ⟨[], [], [], [DomNode.elem "body" [] [DomNode.textNode "hi"]], rfl,
     by simp, rfl⟩,
   freeze_style_survives ⟨true, false, false, true⟩ "x" docC10 rfl
     ⟨[], [], [], [DomNode.elem "body" [] [DomNode.textNode "hi"]], rfl,
       by simp, rfl⟩⟩


end PageSnap

namespace PageSnap

/-- Any successful match of the compiled pattern contains a literal
backslash: the pattern requires one right after `url`. -/
theorem tryMatch_backslash {l m u rest : List Char}
    (h : tryMatch l = some (m, u, rest)) : '\\' ∈ l := by
  match l with
  | [] => exact absurd h (by simp [tryMatch])
  | [x] => exact absurd h (by simp [tryMatch])
  | [x, y] => exact absurd h (by simp [tryMatch])
  | [x, y, z] => exact absurd h (by simp [tryMatch])
  | c1 :: c2 :: c3 :: c4 :: t =>
    by_cases hg : (c1.toLower = 'u' && c2.toLower = 'r' &&
        c3.toLower = 'l' && c4 = '\\') = true
    · have hc4 : c4 = '\\' := by
        simp only [Bool.and_eq_true, decide_eq_true_eq] at hg
        exact hg.2
      subst hc4
      simp
    · unfold tryMatch at h
      dsimp only at h
      rw [if_neg hg] at h
      exact absurd h (by simp)

/-- On input without any literal backslash the scan is the identity: no
position can match, so every character is copied. -/
theorem rewriteGo_id_of_no_backslash
    (R : List Char → List Char → Option (List Char)) (b : List Char) :
    ∀ (f : Nat) (l : List Char), (∀ c ∈ l, c ≠ '\\') →
      rewriteGo R b f l = l := by
  intro f
  induction f with
  | zero => intro l h; rfl
  | succ f ih =>
    intro l h
    cases l with
    | nil => rfl
    | cons ch t =>
      cases hm : tryMatch (ch :: t) with
      | some r =>
        obtain ⟨m, u, rest⟩ := r
        exact absurd rfl (h '\\' (tryMatch_backslash hm))
      | none =>
        rw [rewriteGo, hm]
        rw [ih t (fun c hc => h c (List.mem_cons_of_mem _ hc))]

/-- `rewriteCssUrls` is the identity on any style text without a literal
backslash, for every base and resolver. -/
theorem rewriteCssUrls_id_of_no_backslash
    (R : List Char → List Char → Option (List Char)) (css : String)
    (base : Option String) (hcss : ∀ c ∈ css.toList, c ≠ '\\') :
    rewriteCssUrls R css base = css := by
  cases base with
  | none => rfl
  | some b =>
    unfold rewriteCssUrls
    dsimp only
    by_cases hb : b = ""
    · rw [if_pos hb]
    · rw [if_neg hb,
        rewriteGo_id_of_no_backslash R b.toList css.toList.length
          css.toList hcss]
      rfl

/-- C5 (counterexample): `rewriteCssUrls` is not idempotent as claimed,
even under the proviso stated by the spec (every address the resolver
produces resolves to itself).  The compiled pattern matches a literal
backslash pair after `url`, so on the css text `url` followed by the
characters backslash backslash `x` backslash backslash, the first pass
matches and the callback receives the group-1 text backslash `x`
backslash backslash; the resolver maps it to an address that itself
contains a matchable `url` plus backslashes span, which the second pass
rewrites again, changing the text. -/
theorem rewriteCssUrls_not_idempotent :
    rewriteCssUrls resolveBS
        (rewriteCssUrls resolveBS "url\\\\x\\\\" (some "b")) (some "b") ≠
      rewriteCssUrls resolveBS "url\\\\x\\\\" (some "b") := by
  decide

/-- C5 (amended): `rewriteCssUrls` is total by construction and a
reference whose resolution fails is kept byte-for-byte (the callback
returns the original match).  Because the doubled backslashes of the
source literal make the compiled pattern require literal backslash
characters after `url`, the function is the identity — and therefore
idempotent — on every style text containing no literal backslash, which
includes all ordinary CSS `url(...)` references; those are never matched,
let alone absolutized. -/
theorem rewriteCssUrls_double_escaped
    (R : List Char → List Char → Option (List Char)) (css : String)
    (base : Option String) (hcss : ∀ c ∈ css.toList, c ≠ '\\') :
    rewriteCssUrls R css base = css ∧
      rewriteCssUrls R (rewriteCssUrls R css base) base =
        rewriteCssUrls R css base ∧
      ∀ bs m u : List Char, R u bs = none → urlCallback R bs m u = m := by
  have h1 := rewriteCssUrls_id_of_no_backslash R css base hcss
  refine ⟨h1, by rw [h1, h1], ?_⟩
  intro bs m u hres
  unfold urlCallback
  by_cases hu : u.isEmpty = true
  · rw [if_pos hu]
  · rw [if_neg hu]
    by_cases hpre : (startsWithL "data:".toList u ||
        startsWithL "blob:".toList u || startsWithL "about:".toList u ||
        startsWithL "#".toList u) = true
    · rw [if_pos hpre]
    · rw [if_neg hpre, hres]

/-- C5 (witness): the amended theorem at the ordinary reference
`url(a)` — which the double-escaped pattern leaves untouched — with a
concrete resolver. -/
theorem rewriteCssUrls_double_escaped_witness :
    rewriteCssUrls resolveGoodC5 "url(a)" (some "x") = "url(a)" ∧
      rewriteCssUrls resolveGoodC5
          (rewriteCssUrls resolveGoodC5 "url(a)" (some "x")) (some "x") =
        rewriteCssUrls resolveGoodC5 "url(a)" (some "x") ∧
      ∀ bs m u : List Char, resolveGoodC5 u bs = none →
        urlCallback resolveGoodC5 bs m u = m :=
  rewriteCssUrls_double_escaped resolveGoodC5 "url(a)" (some "x") (by decide)

end PageSnap
